import Mathlib

/-!
Shallow embedding of `src/slack-draft.js` (a Slack webhook handler that
parses draft-pick announcements and records them in a Firebase store).

Strings are modelled as Lean `String`s over their `List Char` data.
JavaScript's regular-expression matching for the one pattern the code
uses is embedded as an explicit backtracking matcher with the same
greedy/leftmost semantics.  The HMAC-SHA256 digest is an abstract
function parameter; `crypto.timingSafeEqual`'s behaviour (including its
throw on length mismatch) is modelled explicitly.  Network effects
(the two Firebase GETs and the PUT) are supplied through an environment
record.  `JSON.parse` is embedded as a fueled recursive-descent parser.
-/

set_option maxRecDepth 100000

namespace SlackDraft

/-- JavaScript's `\s` character class (also the set removed by
`String.prototype.trim`): ASCII whitespace plus the Unicode space
separators, line separators and the BOM.  Stated over the code point. -/
def jsWs (c : Char) : Bool :=
  let n := c.toNat
  n = 32 || n = 9 || n = 10 || n = 11 || n = 12 || n = 13 ||
  n = 0xa0 || n = 0x1680 || (0x2000 ≤ n && n ≤ 0x200a) ||
  n = 0x2028 || n = 0x2029 || n = 0x202f || n = 0x205f ||
  n = 0x3000 || n = 0xfeff

/-- Lower-case ASCII letter `a`-`z`. -/
def isLowerAlpha (c : Char) : Bool := 97 ≤ c.toNat && c.toNat ≤ 122

/-- Upper-case ASCII letter `A`-`Z`. -/
def isUpperAlpha (c : Char) : Bool := 65 ≤ c.toNat && c.toNat ≤ 90

/-- ASCII letter, i.e. what `[A-Z]` matches under the regex `i` flag. -/
def isAlphaCh (c : Char) : Bool := isLowerAlpha c || isUpperAlpha c

/-- ASCII digit, the regex `\d`. -/
def isDigitCh (c : Char) : Bool := 48 ≤ c.toNat && c.toNat ≤ 57

/-- `String.prototype.toLowerCase`, modelled on the ASCII range
(the only range the source's inputs exercise). -/
def jsToLower (c : Char) : Char :=
  if 65 ≤ c.toNat && c.toNat ≤ 90 then Char.ofNat (c.toNat + 32) else c

/-- The character class `[a-z0-9\s]` kept by `normalizeName`'s first
`replace` (its complement is deleted). -/
def keepChar (c : Char) : Bool := isLowerAlpha c || isDigitCh c || jsWs c

/-- `.replace(/\s+/g, ' ')`: every maximal run of whitespace becomes a
single space.  (The run's characters all collapse to `' '`, so keeping
the last of each run is the same as keeping the first.) -/
def collapseWs : List Char → List Char
  | [] => []
  | [c] => if jsWs c then [' '] else [c]
  | c :: d :: rest =>
    if jsWs c && jsWs d then collapseWs (d :: rest)
    else (if jsWs c then ' ' else c) :: collapseWs (d :: rest)

/-- `String.prototype.trim`: drop leading and trailing whitespace. -/
def jsTrim (l : List Char) : List Char :=
  ((l.dropWhile jsWs).reverse.dropWhile jsWs).reverse

/-- `match[k].trim()` packaged back into a string. -/
def trimStr (l : List Char) : String := String.mk (jsTrim l)

/-- `normalizeName` from the source: lower-case, delete every character
outside `[a-z0-9\s]`, collapse whitespace runs to single spaces, trim. -/
def normalizeName (name : String) : String :=
  String.mk (jsTrim (collapseWs ((name.data.map jsToLower).filter keepChar)))

/-! ### The draft-message regex

`/Round (\d+), Pick (\d+) \(#\d+ overall\): (.+) select ([A-Z]+(?:\/[A-Z]+)?) (.+)/i`

applied with `String.prototype.match`: leftmost starting position wins,
and at that position JavaScript's backtracking gives the groups their
greedy preference order.  `.` does not match line terminators. -/

/-- The regex `.` (no `s` flag): any character except a line terminator. -/
def dotCh (c : Char) : Bool :=
  !(c.toNat = 10 || c.toNat = 13 || c.toNat = 0x2028 || c.toNat = 0x2029)

/-- Case-insensitive literal prefix test (the regex has the `i` flag). -/
def litCiAt : List Char → List Char → Bool
  | _, [] => true
  | [], _ :: _ => false
  | c :: cs, d :: ds => (jsToLower c = jsToLower d) && litCiAt cs ds

/-- Consume a case-insensitive literal, or fail. -/
def litCiDrop (s : List Char) (lit : List Char) : Option (List Char) :=
  if litCiAt s lit then some (s.drop lit.length) else none

/-- Consume a nonempty maximal digit run (`(\d+)` here is deterministic:
every following literal begins with a non-digit, so backtracking inside
the run can never succeed). -/
def digitsSplit (s : List Char) : Option (List Char × List Char) :=
  let d := s.takeWhile isDigitCh
  if d.isEmpty then none else some (d, s.drop d.length)

/-- `parseInt` on an all-digit capture: plain decimal. -/
def digitsToNat (l : List Char) : Nat :=
  l.foldl (fun acc c => acc * 10 + (c.toNat - '0'.toNat)) 0

/-- The alternatives of `([A-Z]+(?:\/[A-Z]+)?)` (with `i`, so any ASCII
letters) at a position, in backtracking priority order: the greedy
with-slash parse first, then the optional group left empty.  The letter
runs themselves are forced maximal because the character required after
the group (`'/'` or `' '`) is never a letter. -/
def posAlts (l : List Char) : List (List Char × List Char) :=
  let run1 := l.takeWhile isAlphaCh
  if run1.isEmpty then []
  else
    let rest1 := l.drop run1.length
    let run2 := (rest1.drop 1).takeWhile isAlphaCh
    if rest1.head? = some '/' && !run2.isEmpty then
      [(run1 ++ '/' :: run2, (rest1.drop 1).drop run2.length), (run1, rest1)]
    else [(run1, rest1)]

/-- After the literal `" select "`: match the position group, the single
space, and the final `(.+)` (greedy to the end of the line, nonempty).
Returns `(position capture, player-name capture)`. -/
def tryPos (l : List Char) : Option (List Char × List Char) :=
  (posAlts l).findSome? fun alt =>
    if alt.2.head? = some ' ' then
      if ((alt.2.drop 1).takeWhile dotCh).isEmpty then none
      else some (alt.1, (alt.2.drop 1).takeWhile dotCh)
    else none

/-- The literal `" select "` (case-insensitive via `litCiAt`). -/
def selectLit : List Char := " select ".data

/-- One candidate split for `(.+) select <position> (.+)`: group 3 takes
the first `k` characters, then the literal `" select "`, the position
group and the final `(.+)` must follow. -/
def tailAttempt (rest : List Char) (k : Nat) : Option (List Char × List Char × List Char) := do
  let after ← litCiDrop (rest.drop k) selectLit
  let (g4, g5) ← tryPos after
  pure (rest.take k, g4, g5)

/-- Backtracking for `(.+) select <position> (.+)` on the text after
`"overall): "`: the greedy `(.+)` tries its longest candidate first, so
`k` counts the candidate length of group 3 downward.  The caller starts
`k` at the length of the maximal `.`-run, so every candidate consists of
non-line-terminator characters. -/
def tailMatch (rest : List Char) : Nat → Option (List Char × List Char × List Char)
  | 0 => none
  | Nat.succ k => tailAttempt rest (k + 1) <|> tailMatch rest k

/-- The parsed record produced by `parseDraftMessage`. -/
structure DraftInfo where
  round : Nat
  pick : Nat
  teamName : String
  position : String
  playerName : String
  deriving DecidableEq

/-- Attempt the whole pattern anchored at the current position.  The
prefix through `"overall): "` is deterministic (fixed literals and
forced-maximal digit runs); the tail backtracks via `tailMatch`. -/
def matchAt (s : List Char) : Option DraftInfo := do
  let s1 ← litCiDrop s "Round ".data
  let (d1, s2) ← digitsSplit s1
  let s3 ← litCiDrop s2 ", Pick ".data
  let (d2, s4) ← digitsSplit s3
  let s5 ← litCiDrop s4 " (#".data
  let (_, s6) ← digitsSplit s5
  let rest ← litCiDrop s6 " overall): ".data
  let (g3, g4, g5) ← tailMatch rest (rest.takeWhile dotCh).length
  pure ⟨digitsToNat d1, digitsToNat d2, trimStr g3, trimStr g4, trimStr g5⟩

/-- `String.prototype.match` without anchors: try each start position
left to right; the first position admitting a match wins. -/
def scanMatch : List Char → Option DraftInfo
  | [] => none
  | c :: rest => matchAt (c :: rest) <|> scanMatch rest

/-- `parseDraftMessage` from the source: regex match (null on failure),
then `parseInt` the digit groups and `.trim()` the string groups. -/
def parseDraftMessage (text : String) : Option DraftInfo :=
  scanMatch text.data

/-! ### JSON values and `JSON.parse`

`JSON.parse(event.body)` is embedded as a fueled recursive-descent
parser over the JSON grammar.  Numbers are kept as their source lexeme
(the handler never computes with a parsed number). -/

/-- A parsed JSON value. -/
inductive Jv where
  | null
  | bool (b : Bool)
  | num (raw : String)
  | str (s : String)
  | arr (elems : List Jv)
  | obj (fields : List (String × Jv))

/-- Whitespace permitted between JSON tokens. -/
def jsonWsCh (c : Char) : Bool := c = ' ' || c = '\t' || c = '\n' || c = '\r'

/-- Skip inter-token whitespace. -/
def skipJsonWs (l : List Char) : List Char := l.dropWhile jsonWsCh

/-- Value of a hex digit. -/
def hexVal (c : Char) : Option Nat :=
  if isDigitCh c then some (c.toNat - 48)
  else if 97 ≤ c.toNat && c.toNat ≤ 102 then some (c.toNat - 97 + 10)
  else if 65 ≤ c.toNat && c.toNat ≤ 70 then some (c.toNat - 65 + 10)
  else none

/-- Parse the remainder of a JSON string (the opening quote is already
consumed): returns the decoded content and the input after the closing
quote. -/
def parseJString : Nat → List Char → Option (List Char × List Char)
  | 0, _ => none
  | _, [] => none
  | Nat.succ fuel, c :: rest =>
    if c = '"' then some ([], rest)
    else if c = '\\' then
      match rest with
      | [] => none
      | e :: rest2 =>
        let cont : Char → List Char → Option (List Char × List Char) := fun ch r =>
          (parseJString fuel r).map (fun p => (ch :: p.1, p.2))
        if e = '"' then cont '"' rest2
        else if e = '\\' then cont '\\' rest2
        else if e = '/' then cont '/' rest2
        else if e = 'b' then cont (Char.ofNat 8) rest2
        else if e = 'f' then cont (Char.ofNat 12) rest2
        else if e = 'n' then cont '\n' rest2
        else if e = 'r' then cont '\r' rest2
        else if e = 't' then cont '\t' rest2
        else if e = 'u' then
          match rest2 with
          | h1 :: h2 :: h3 :: h4 :: rest3 =>
            match hexVal h1, hexVal h2, hexVal h3, hexVal h4 with
            | some v1, some v2, some v3, some v4 =>
              cont (Char.ofNat (((v1 * 16 + v2) * 16 + v3) * 16 + v4)) rest3
            | _, _, _, _ => none
          | _ => none
        else none
    else if c.val < 32 then none
    else (parseJString fuel rest).map (fun p => (c :: p.1, p.2))

/-- Lex a JSON number (`-? int frac? exp?`, no leading zeros), returning
its lexeme and the rest of the input. -/
def numLexeme (l : List Char) : Option (List Char × List Char) :=
  let (sign, l1) : List Char × List Char :=
    match l with
    | '-' :: r => (['-'], r)
    | _ => ([], l)
  let ds := l1.takeWhile isDigitCh
  if ds.isEmpty then none
  else if 1 < ds.length && ds.headD ' ' = '0' then none
  else
    let l2 := l1.drop ds.length
    let (fracPart, l3) : List Char × List Char :=
      match l2 with
      | '.' :: r =>
        let fs := r.takeWhile isDigitCh
        if fs.isEmpty then ([], l2) else ('.' :: fs, r.drop fs.length)
      | _ => ([], l2)
    if fracPart.isEmpty && (match l2 with | '.' :: _ => true | _ => false) then none
    else
      let (expPart, l4) : List Char × List Char :=
        match l3 with
        | e :: r =>
          if e = 'e' || e = 'E' then
            let (sg, r2) : List Char × List Char :=
              match r with
              | s :: r' => if s = '+' || s = '-' then ([s], r') else ([], r)
              | [] => ([], r)
            let es := r2.takeWhile isDigitCh
            if es.isEmpty then ([], l3) else (e :: (sg ++ es), r2.drop es.length)
          else ([], l3)
        | [] => ([], l3)
      some (sign ++ ds ++ fracPart ++ expPart, l4)

/-- Case-sensitive literal consumption (for `true`/`false`/`null`). -/
def litDrop (s lit : List Char) : Option (List Char) :=
  if s.take lit.length = lit then some (s.drop lit.length) else none

/-- The three recursion modes of the JSON grammar, merged into one
fueled function so the recursion is structural on the fuel (and hence
evaluates by kernel reduction). -/
inductive JMode where
  | value
  | fields
  | elems

/-- Result of one `parseJ` step. -/
inductive JRes where
  | v (x : Jv)
  | fs (x : List (String × Jv))
  | es (x : List Jv)

/-- Recursive-descent parsing of the JSON grammar: a value, the members
of a nonempty object, or the elements of a nonempty array. -/
def parseJ : Nat → JMode → List Char → Option (JRes × List Char)
  | 0, _, _ => none
  | Nat.succ fuel, .value, l =>
    (match skipJsonWs l with
    | [] => none
    | c :: rest =>
      if c = '"' then
        match parseJString (rest.length + 1) rest with
        | some (content, r) => some (JRes.v (Jv.str (String.mk content)), r)
        | none => none
      else if c = '{' then
        match skipJsonWs rest with
        | '}' :: r => some (JRes.v (Jv.obj []), r)
        | r =>
          match parseJ fuel .fields r with
          | some (JRes.fs fs, r2) => some (JRes.v (Jv.obj fs), r2)
          | _ => none
      else if c = '[' then
        match skipJsonWs rest with
        | ']' :: r => some (JRes.v (Jv.arr []), r)
        | r =>
          match parseJ fuel .elems r with
          | some (JRes.es es, r2) => some (JRes.v (Jv.arr es), r2)
          | _ => none
      else
        (litDrop (c :: rest) "true".data).map (fun r => (JRes.v (Jv.bool true), r)) <|>
        (litDrop (c :: rest) "false".data).map (fun r => (JRes.v (Jv.bool false), r)) <|>
        (litDrop (c :: rest) "null".data).map (fun r => (JRes.v Jv.null, r)) <|>
        (numLexeme (c :: rest)).map (fun p => (JRes.v (Jv.num (String.mk p.1)), p.2)))
  | Nat.succ fuel, .fields, l =>
    (match skipJsonWs l with
    | '"' :: rest =>
      match parseJString (rest.length + 1) rest with
      | some (key, r1) =>
        match skipJsonWs r1 with
        | ':' :: r2 =>
          match parseJ fuel .value r2 with
          | some (JRes.v v, r3) =>
            (match skipJsonWs r3 with
            | ',' :: r4 =>
              match parseJ fuel .fields r4 with
              | some (JRes.fs fs, r5) => some (JRes.fs ((String.mk key, v) :: fs), r5)
              | _ => none
            | '}' :: r4 => some (JRes.fs [(String.mk key, v)], r4)
            | _ => none)
          | _ => none
        | _ => none
      | none => none
    | _ => none)
  | Nat.succ fuel, .elems, l =>
    (match parseJ fuel .value l with
    | some (JRes.v v, r1) =>
      (match skipJsonWs r1 with
      | ',' :: r2 =>
        match parseJ fuel .elems r2 with
        | some (JRes.es es, r3) => some (JRes.es (v :: es), r3)
        | _ => none
      | ']' :: r2 => some (JRes.es [v], r2)
      | _ => none)
    | _ => none)

/-- `JSON.parse`: a whole-input JSON value, or failure (the thrown
`SyntaxError`, which the handler catches and maps to 400). -/
def jsonParse (s : String) : Option Jv :=
  match parseJ (2 * s.data.length + 2) .value s.data with
  | some (JRes.v v, rest) => if skipJsonWs rest = [] then some v else none
  | _ => none

/-- Object member lookup after `JSON.parse`: a duplicated key keeps its
last value. -/
def objLookup (fields : List (String × Jv)) (k : String) : Option Jv :=
  fields.foldl (fun acc kv => if kv.1 = k then some kv.2 else acc) none

/-- JavaScript property access `v.k` on a parsed JSON value: throws a
`TypeError` on `null`, yields the member on objects, and `undefined`
(`none`) on other primitives (none of the keys the handler reads are
prototype members of those types). -/
def jmem : Jv → String → Except String (Option Jv)
  | .null, _ => .error "TypeError: Cannot read properties of null"
  | .obj fields, k => .ok (objLookup fields k)
  | _, _ => .ok none

/-- JavaScript truthiness of a possibly-`undefined` JSON value.  (For
numbers the lexeme is inspected: a value with no nonzero digit is `0`.) -/
def truthyJv : Option Jv → Bool
  | none => false
  | some .null => false
  | some (.bool b) => b
  | some (.num raw) => raw.data.any (fun c => '1' ≤ c && c ≤ '9')
  | some (.str s) => s ≠ ""
  | some (.arr _) => true
  | some (.obj _) => true

/-- Strict equality `v === '<s>'` against a string literal. -/
def isStrVal (v : Option Jv) (s : String) : Bool :=
  match v with
  | some (.str t) => t = s
  | _ => false

/-- A hex digit character (lower case), for `JSON.stringify` escapes. -/
def hexDigit (n : Nat) : Char :=
  if n < 10 then Char.ofNat ('0'.toNat + n) else Char.ofNat ('a'.toNat + n - 10)

/-- The `JSON.stringify` escape of one character. -/
def escapeChar (c : Char) : List Char :=
  if c = '"' then ['\\', '"']
  else if c = '\\' then ['\\', '\\']
  else if c = '\n' then ['\\', 'n']
  else if c = '\r' then ['\\', 'r']
  else if c = '\t' then ['\\', 't']
  else if c.val = 8 then ['\\', 'b']
  else if c.val = 12 then ['\\', 'f']
  else if c.val < 32 then ['\\', 'u', '0', '0', hexDigit (c.toNat / 16), hexDigit (c.toNat % 16)]
  else [c]

/-- `JSON.stringify` of a string. -/
def jsonQuote (s : String) : String :=
  String.mk ('"' :: s.data.foldr (fun c acc => escapeChar c ++ acc) ['"'])

/-- Comma-join pre-rendered pieces. -/
def joinComma : List String → String
  | [] => ""
  | [s] => s
  | s :: s2 :: rest => s ++ "," ++ joinComma (s2 :: rest)

/-- `JSON.stringify` of a value, fueled so the recursion is structural
(the fuel bounds the nesting depth). -/
def stringifyFuel : Nat → Jv → String
  | 0, _ => ""
  | Nat.succ fuel, v =>
    match v with
    | .null => "null"
    | .bool true => "true"
    | .bool false => "false"
    | .num raw => raw
    | .str s => jsonQuote s
    | .arr es => "[" ++ joinComma (es.map (stringifyFuel fuel)) ++ "]"
    | .obj fs =>
      "\x7b" ++ joinComma (fs.map (fun kv => jsonQuote kv.1 ++ ":" ++ stringifyFuel fuel kv.2)) ++ "\x7d"

/-- `JSON.stringify({ challenge: payload.challenge })`: an `undefined`
member is dropped entirely.  The fuel is a modelling artifact: the
caller passes any bound on the value's nesting depth (the handler uses
the body length, which dominates the depth of every parsed value). -/
def challengeBody (fuel : Nat) (c : Option Jv) : String :=
  match c with
  | none => "\x7b\x7d"
  | some v => "\x7b\"challenge\":" ++ stringifyFuel fuel v ++ "\x7d"

/-! ### Signature verification -/

/-- JavaScript falsiness of a possibly-missing header string
(`undefined` and `""` are falsy). -/
def jsFalsyStrOpt : Option String → Bool
  | none => true
  | some s => s = ""

/-- Decimal reading of a nonempty all-digit string. -/
def strToNatQ (s : String) : Option Nat :=
  if !s.data.isEmpty && s.data.all isDigitCh then some (digitsToNat s.data) else none

/-- Numeric coercion of the timestamp header in `now - timestamp`,
modelled for integer-valued strings; anything else coerces to `NaN`
(`none`). -/
def jsToNumber (s : String) : Option Int :=
  match strToNatQ s with
  | some n => some (n : Int)
  | none =>
    match s.data with
    | '-' :: rest => (strToNatQ (String.mk rest)).map (fun n => -(n : Int))
    | _ => none

/-- UTF-8 byte count of a character (what `Buffer.from` produces). -/
def charUtf8Size (c : Char) : Nat :=
  if c.toNat < 0x80 then 1 else if c.toNat < 0x800 then 2
  else if c.toNat < 0x10000 then 3 else 4

/-- UTF-8 byte length of a string. -/
def utf8Len (s : String) : Nat := s.data.foldl (fun n c => n + charUtf8Size c) 0

/-- `crypto.timingSafeEqual(Buffer.from(a), Buffer.from(b))`: compares
equal-length buffers, and THROWS a `RangeError` when the byte lengths
differ. -/
def timingSafeEqual (a b : String) : Except String Bool :=
  if utf8Len a = utf8Len b then .ok (a = b)
  else .error "RangeError: Input buffers must have the same byte length"

/-- The two Slack headers the handler reads. -/
structure Headers where
  xSlackSignature : Option String
  xSlackRequestTimestamp : Option String
  deriving DecidableEq

/-- The inbound request (`event` in the source). -/
structure Event where
  httpMethod : String
  headers : Headers
  body : String
  deriving DecidableEq

/-- `verifySlackSignature` from the source.  `hmac secret msg` stands
for the hex HMAC-SHA256 digest.  `now` is `Math.floor(Date.now()/1000)`.
Either a verdict, or the `RangeError` `timingSafeEqual` can throw. -/
def verifySlackSignature (hmac : String → String → String) (now : Int)
    (event : Event) (signingSecret : String) : Except String Bool :=
  let signature := event.headers.xSlackSignature
  let timestamp := event.headers.xSlackRequestTimestamp
  if jsFalsyStrOpt signature || jsFalsyStrOpt timestamp then .ok false
  else
    let ts := timestamp.getD ""
    let tsOutOfWindow : Bool :=
      match jsToNumber ts with
      | some t => decide ((now - t).natAbs > 300)
      | none => false
    if tsOutOfWindow then .ok false
    else
      let sigBasestring := "v0:" ++ ts ++ ":" ++ event.body
      let mySignature := "v0=" ++ hmac signingSecret sigBasestring
      timingSafeEqual mySignature (signature.getD "")

/-! ### Team table and player resolution -/

/-- The static team table (21 own keys; two names share `"SPA"`). -/
def teamNameToAbbrev : List (String × String) :=
  [("Adelaide Bite", "ADE"),
   ("Amsterdam Dragons", "AMS"),
   ("California Surfers", "CAL"),
   ("Cleveland Spiders", "CLE"),
   ("Curacao Blue Wave", "SPA"),
   ("Denver Blucifers", "DEN"),
   ("Dubai Bedouins", "DUB"),
   ("Galapagos Shellbacks", "GAL"),
   ("Havana Sugar Kings", "HAV"),
   ("Honolulu Honu", "HON"),
   ("Lappland Boazu", "LAP"),
   ("London Red Coats", "LDN"),
   ("Longbow Hunters", "LON"),
   ("North Korea Outlaws", "NKO"),
   ("Rome Centurions", "RME"),
   ("Sao Paulo Black Mambas", "SPA"),
   ("Sint Maarten Sun Chasers", "SMT"),
   ("St. Lucia Mermen", "STU"),
   ("Tokyo Tigers", "TOK"),
   ("Toronto Huskies", "TOR"),
   ("Vancouver Homewreckers", "VAN")]

/-- Property names inherited by every plain object from
`Object.prototype` (all of which yield truthy values). -/
def objectPrototypeProps : List String :=
  ["constructor", "hasOwnProperty", "isPrototypeOf", "propertyIsEnumerable",
   "toLocaleString", "toString", "valueOf",
   "__defineGetter__", "__defineSetter__", "__lookupGetter__",
   "__lookupSetter__", "__proto__"]

/-- What `teamNameToAbbrev[key]` can evaluate to. -/
inductive JsProp where
  | str (s : String)
  | inherited
  | undefinedProp
  deriving DecidableEq

/-- `teamNameToAbbrev[draftInfo.teamName]`: own data property first,
then the `Object.prototype` chain, else `undefined`. -/
def jsGetTeam (k : String) : JsProp :=
  match teamNameToAbbrev.lookup k with
  | some v => .str v
  | none => if objectPrototypeProps.contains k then .inherited else .undefinedProp

/-- Truthiness of a property-access result. -/
def truthyProp : JsProp → Bool
  | .str s => s ≠ ""
  | .inherited => true
  | .undefinedProp => false

/-- A player record from the store; either property may be absent. -/
structure Player where
  Name : Option String
  ID : Option String
  deriving DecidableEq

/-- Truthiness of a possibly-absent string property. -/
def truthyS : Option String → Bool
  | none => false
  | some s => s ≠ ""

/-- One `for (const player of list)` loop from the source: skip entries
that are `null` or lack a truthy `Name`; stop at the first whose
normalized name equals the search key. -/
def findFirst (norm : String) : List (Option Player) → Option Player
  | [] => none
  | none :: rest => findFirst norm rest
  | some p :: rest =>
    if truthyS p.Name && normalizeName (p.Name.getD "") == norm then some p
    else findFirst norm rest

/-- Written from the spec's words, for comparison with the code's scan:
"the first entry (scanning batters before pitchers, in each collection's
natural stored order) whose normalized name equals the normalized target
name". -/
def specFirstMatch (target : String) (entries : List (Option Player)) : Option Player :=
  entries.findSome? fun p? =>
    match p? with
    | some p =>
      match p.Name with
      | some nm => if normalizeName nm == normalizeName target then some p else none
      | none => none
    | none => none

/-- The two loops in sequence: batters first, then pitchers, tracking
`playerType`. -/
def resolvePlayer (batters pitchers : List (Option Player)) (target : String) :
    Option (Player × String) :=
  let n := normalizeName target
  match findFirst n batters with
  | some p => some (p, "batters")
  | none =>
    match findFirst n pitchers with
    | some p => some (p, "pitchers")
    | none => none

/-! ### The handler -/

/-- The ambient state the handler reads: configuration, the clock, the
two fetched collections (`none` models a `null` response body, to which
the source applies `|| []`), whether an awaited call inside the `try`
block rejects, and whether the `PUT` response is `ok`. -/
structure Env where
  signingSecret : String
  nowSec : Int
  batters : Option (List (Option Player))
  pitchers : Option (List (Option Player))
  fetchThrows : Bool
  putOk : Bool
  deriving DecidableEq

/-- What an invocation produces: an HTTP response, or an exception that
escapes the handler. -/
inductive JsOutcome where
  | resp (statusCode : Nat) (body : String)
  | thrown (msg : String)
  deriving DecidableEq

/-- `exports.handler` from the source, line by line.  `hmac` abstracts
`crypto.createHmac('sha256', secret).update(msg).digest('hex')`. -/
def handler (hmac : String → String → String) (env : Env) (event : Event) : JsOutcome :=
  if event.httpMethod ≠ "POST" then .resp 405 "Method Not Allowed"
  else
    match verifySlackSignature hmac env.nowSec event env.signingSecret with
    | .error e => .thrown e
    | .ok false => .resp 401 "Unauthorized"
    | .ok true =>
      match jsonParse event.body with
      | none => .resp 400 "Invalid JSON"
      | some payload =>
        match jmem payload "type" with
        | .error e => .thrown e
        | .ok ptype =>
          if isStrVal ptype "url_verification" then
            match jmem payload "challenge" with
            | .error e => .thrown e
            | .ok c => .resp 200 (challengeBody (event.body.data.length + 1) c)
          else if isStrVal ptype "event_callback" then
            match jmem payload "event" with
            | .error e => .thrown e
            | .ok none => .thrown "TypeError: Cannot read properties of undefined"
            | .ok (some evt) =>
              match jmem evt "type" with
              | .error e => .thrown e
              | .ok etype =>
                match jmem evt "subtype", jmem evt "bot_id" with
                | .error e, _ => .thrown e
                | _, .error e => .thrown e
                | .ok esub, .ok ebot =>
                  if !isStrVal etype "message" || truthyJv esub || truthyJv ebot then
                    .resp 200 "Ignored"
                  else
                    match jmem evt "text" with
                    | .error e => .thrown e
                    | .ok (some (.str text)) =>
                      match parseDraftMessage text with
                      | none => .resp 200 "Not a draft message"
                      | some draftInfo =>
                        let teamAbbrev := jsGetTeam draftInfo.teamName
                        if !truthyProp teamAbbrev then .resp 200 "Unknown team"
                        else if env.fetchThrows then .resp 500 "Server error"
                        else
                          let batters := env.batters.getD []
                          let pitchers := env.pitchers.getD []
                          match resolvePlayer batters pitchers draftInfo.playerName with
                          | none => .resp 200 "Player not found"
                          | some (p, _) =>
                            if !truthyS p.ID then .resp 200 "Player not found"
                            else if env.putOk then .resp 200 "Player drafted successfully"
                            else .resp 500 "Firebase update failed"
                    | .ok _ => .thrown "TypeError: text.match is not a function"
          else .resp 200 "OK"

example :
    parseDraftMessage "Round 3, Pick 12 (#56 overall): Denver Blucifers select P Bill Muncey" =
      some ⟨3, 12, "Denver Blucifers", "P", "Bill Muncey"⟩ := by decide

example : parseDraftMessage "Congrats to everyone on a great draft!" = none := by decide

example : normalizeName "Bill  Muncey!" = "bill muncey" := by decide

-- scratch examples (to be replaced by claim theorems)
example :
    handler (fun _ _ => "K") ⟨"sec", 1000, none, none, false, true⟩
      ⟨"POST", ⟨none, none⟩, "\x7b\"type\":\"url_verification\",\"challenge\":\"abc\"\x7d"⟩ =
      .resp 401 "Unauthorized" := by decide

example :
    handler (fun _ _ => "K") ⟨"sec", 1000, none, none, false, true⟩
      ⟨"POST", ⟨some "v0=K", some "1000"⟩, "\x7b\"type\":\"url_verification\",\"challenge\":\"abc\"\x7d"⟩ =
      .resp 200 "\x7b\"challenge\":\"abc\"\x7d" := by decide

example :
    handler (fun _ _ => "K") ⟨"sec", 1000, none, none, false, true⟩
      ⟨"POST", ⟨some "v0=K", some "1000"⟩, "notjson"⟩ = .resp 400 "Invalid JSON" := by decide

example :
    handler (fun _ _ => "K") ⟨"sec", 1000, none, none, false, true⟩
      ⟨"POST", ⟨some "v0=K", some "1000"⟩, "\x7b\"type\":\"event_callback\"\x7d"⟩ =
      .thrown "TypeError: Cannot read properties of undefined" := by decide

example :
    handler (fun _ _ => "K") ⟨"sec", 1000, none, none, false, true⟩
      ⟨"POST", ⟨some "v0=K", some "1000"⟩,
       "\x7b\"type\":\"event_callback\",\"event\":\x7b\"type\":\"message\",\"text\":\"Round 1, Pick 1 (#1 overall): constructor select P Foo Bar\"\x7d\x7d"⟩ =
      .resp 200 "Player not found" := by decide

example :
    parseDraftMessage "Round 1, Pick 2 (#3 overall):   select P Bill" =
      some ⟨1, 2, "", "P", "Bill"⟩ := by decide

example :
    parseDraftMessage "Round 3, Pick 12 (#56 overall): Denver Blucifers select p Bill Muncey" =
      some ⟨3, 12, "Denver Blucifers", "p", "Bill Muncey"⟩ := by decide

example :
    parseDraftMessage "Round 1, Pick 2 (#3 overall): AA select BB select P John Doe" =
      some ⟨1, 2, "AA select BB", "P", "John Doe"⟩ := by decide

example :
    resolvePlayer [some ⟨some "", some "a"⟩] [some ⟨some "!", some "b"⟩] "!" =
      some (⟨some "!", some "b"⟩, "pitchers") := by decide

example :
    handler (fun _ b => b) ⟨"sec", 1000, none, none, false, true⟩
      ⟨"POST", ⟨some ("v0=" ++ "v0:1000:aaa"), some "1000"⟩, "bbb"⟩ =
      .resp 401 "Unauthorized" := by decide

example :
    handler (fun _ _ => "K") ⟨"sec", 1000, none,
        some [some ⟨some "Bill Muncey", some "p123"⟩], false, true⟩
      ⟨"POST", ⟨some "v0=K", some "1000"⟩,
       "\x7b\"type\":\"event_callback\",\"event\":\x7b\"type\":\"message\",\"text\":\"Round 3, Pick 12 (#56 overall): Denver Blucifers select P Bill Muncey\"\x7d\x7d"⟩ =
      .resp 200 "Player drafted successfully" := by decide

/-! ### Character-class lemmas -/

theorem jsWs_iff {c : Char} :
    jsWs c = true ↔ (c.toNat = 32 ∨ c.toNat = 9 ∨ c.toNat = 10 ∨ c.toNat = 11 ∨
      c.toNat = 12 ∨ c.toNat = 13 ∨ c.toNat = 160 ∨ c.toNat = 5760 ∨
      (8192 ≤ c.toNat ∧ c.toNat ≤ 8202) ∨ c.toNat = 8232 ∨ c.toNat = 8233 ∨
      c.toNat = 8239 ∨ c.toNat = 8287 ∨ c.toNat = 12288 ∨ c.toNat = 65279) := by
  simp [jsWs, Bool.or_eq_true, Bool.and_eq_true, decide_eq_true_eq, or_assoc]

theorem char_eq_of_toNat {c d : Char} (h : c.toNat = d.toNat) : c = d :=
  Char.ext_iff.mpr (UInt32.ext_iff.mpr h)

theorem jsWs_false_of_mid {c : Char} (h1 : 33 ≤ c.toNat) (h2 : c.toNat ≤ 125) :
    jsWs c = false := by
  rw [Bool.eq_false_iff, Ne, jsWs_iff]
  omega

theorem jsToLower_eq_self {c : Char} (h : c.toNat < 65 ∨ 90 < c.toNat) : jsToLower c = c := by
  have hcond : ¬((65 ≤ c.toNat && c.toNat ≤ 90) = true) := by
    simp only [Bool.and_eq_true, decide_eq_true_eq, not_and]
    omega
  simp [jsToLower, hcond]

theorem isLowerAlpha_iff {c : Char} : isLowerAlpha c = true ↔ 97 ≤ c.toNat ∧ c.toNat ≤ 122 := by
  simp [isLowerAlpha]

theorem isDigitCh_iff {c : Char} : isDigitCh c = true ↔ 48 ≤ c.toNat ∧ c.toNat ≤ 57 := by
  simp [isDigitCh]

theorem isAlphaCh_iff {c : Char} :
    isAlphaCh c = true ↔ (97 ≤ c.toNat ∧ c.toNat ≤ 122) ∨ (65 ≤ c.toNat ∧ c.toNat ≤ 90) := by
  simp [isAlphaCh, isLowerAlpha, isUpperAlpha]

/-! ### Generic list lemmas -/

theorem map_fix {f : Char → Char} : ∀ {l : List Char}, (∀ c ∈ l, f c = c) → l.map f = l := by
  intro l h
  induction l with
  | nil => rfl
  | cons a t ih =>
    simp only [List.map_cons]
    rw [h a (by simp), ih (fun c hc => h c (by simp [hc]))]

theorem mem_dropWhile_of_not {p : Char → Bool} {c : Char} (hc : p c = false) :
    ∀ {l : List Char}, c ∈ l → c ∈ l.dropWhile p := by
  intro l hl
  induction l with
  | nil => cases hl
  | cons a t ih =>
    rw [List.dropWhile_cons]
    by_cases hpa : p a = true
    · rw [if_pos hpa]
      rcases List.mem_cons.mp hl with h | h
      · rw [h] at hc
        rw [hc] at hpa
        exact absurd hpa (by simp)
      · exact ih h
    · rw [if_neg hpa]
      exact hl

theorem head?_dropWhile_not {p : Char → Bool} :
    ∀ {l : List Char} {c : Char}, (l.dropWhile p).head? = some c → p c = false := by
  intro l
  induction l with
  | nil => intro c h; cases h
  | cons a t ih =>
    intro c h
    rw [List.dropWhile_cons] at h
    by_cases hpa : p a = true
    · rw [if_pos hpa] at h
      exact ih h
    · rw [if_neg hpa] at h
      rw [List.head?_cons, Option.some_inj] at h
      rw [← h]
      exact Bool.eq_false_iff.mpr hpa

theorem rtrim_prefixOf (p : Char → Bool) (l : List Char) :
    (l.reverse.dropWhile p).reverse <+: l := by
  have hd : l.reverse.takeWhile p ++ l.reverse.dropWhile p = l.reverse :=
    List.takeWhile_append_dropWhile p l.reverse
  have hsplit : l = (l.reverse.dropWhile p).reverse ++ (l.reverse.takeWhile p).reverse := by
    conv_lhs => rw [← List.reverse_reverse l, ← hd]
    rw [List.reverse_append]
  conv_rhs => rw [hsplit]
  exact List.prefix_append _ _

/-! ### `normalizeName` structure lemmas -/

theorem mem_collapseWs :
    ∀ {l : List Char} {c : Char}, c ∈ collapseWs l →
      c = ' ' ∨ (jsWs c = false ∧ c ∈ l) := by
  intro l
  induction l with
  | nil => intro c h; simp [collapseWs] at h
  | cons a t ih =>
    intro c h
    cases t with
    | nil =>
      by_cases ha : jsWs a = true
      · simp [collapseWs, ha] at h
        exact Or.inl h
      · simp [collapseWs, ha] at h
        subst h
        exact Or.inr ⟨Bool.eq_false_iff.mpr ha, by simp⟩
    | cons b t2 =>
      by_cases hab : (jsWs a && jsWs b) = true
      · rw [show collapseWs (a :: b :: t2) = collapseWs (b :: t2) by
          simp [collapseWs, hab]] at h
        rcases ih h with h' | ⟨hws, hm⟩
        · exact Or.inl h'
        · exact Or.inr ⟨hws, List.mem_cons_of_mem _ hm⟩
      · rw [show collapseWs (a :: b :: t2) =
            (if jsWs a then ' ' else a) :: collapseWs (b :: t2) by
          simp [collapseWs, hab]] at h
        rcases List.mem_cons.mp h with h' | h'
        · by_cases ha : jsWs a = true
          · rw [if_pos ha] at h'
            exact Or.inl h'
          · rw [if_neg ha] at h'
            subst h'
            exact Or.inr ⟨Bool.eq_false_iff.mpr ha, by simp⟩
        · rcases ih h' with h'' | ⟨hws, hm⟩
          · exact Or.inl h''
          · exact Or.inr ⟨hws, List.mem_cons_of_mem _ hm⟩

theorem collapse_cons_not_ws {d : Char} (hd : jsWs d = false) (r : List Char) :
    collapseWs (d :: r) = d :: collapseWs r := by
  cases r with
  | nil => simp [collapseWs, hd]
  | cons e r2 =>
    have hde : (jsWs d && jsWs e) = false := by simp [hd]
    simp [collapseWs, hde, hd]

theorem chain'_collapseWs (l : List Char) :
    List.Chain' (fun a b => ¬(jsWs a = true ∧ jsWs b = true)) (collapseWs l) := by
  induction l with
  | nil => simp [collapseWs]
  | cons a t ih =>
    cases t with
    | nil =>
      by_cases ha : jsWs a = true <;> simp [collapseWs, ha]
    | cons b t2 =>
      by_cases hab : (jsWs a && jsWs b) = true
      · rw [show collapseWs (a :: b :: t2) = collapseWs (b :: t2) by simp [collapseWs, hab]]
        exact ih
      · rw [show collapseWs (a :: b :: t2) =
            (if jsWs a then ' ' else a) :: collapseWs (b :: t2) by simp [collapseWs, hab]]
        by_cases hb : jsWs b = true
        · have ha : jsWs a = false := by
            cases haT : jsWs a
            · rfl
            · exact absurd (by simp [haT, hb]) hab
          rw [if_neg (by simp [ha])]
          rcases hM : collapseWs (b :: t2) with _ | ⟨m, M⟩
          · simp
          · rw [List.chain'_cons]
            exact ⟨fun hc => by simp [ha] at hc, hM ▸ ih⟩
        · rw [collapse_cons_not_ws (Bool.eq_false_iff.mpr hb)]
          rw [List.chain'_cons]
          refine ⟨fun hc => absurd hc.2 hb, ?_⟩
          rw [← collapse_cons_not_ws (Bool.eq_false_iff.mpr hb)]
          exact ih

theorem collapseWs_fix :
    ∀ {l : List Char}, (∀ c ∈ l, jsWs c = true → c = ' ') →
      List.Chain' (fun a b => ¬(jsWs a = true ∧ jsWs b = true)) l →
      collapseWs l = l := by
  intro l
  induction l with
  | nil => intro _ _; rfl
  | cons a t ih =>
    intro hws hch
    cases t with
    | nil =>
      by_cases ha : jsWs a = true
      · simp [collapseWs, ha, hws a (by simp) ha]
      · simp [collapseWs, ha]
    | cons b t2 =>
      have hR := (List.chain'_cons.mp hch).1
      have hab : (jsWs a && jsWs b) = false := by
        cases haT : jsWs a <;> cases hbT : jsWs b <;> simp_all
      rw [show collapseWs (a :: b :: t2) =
          (if jsWs a then ' ' else a) :: collapseWs (b :: t2) by simp [collapseWs, hab]]
      have ht : collapseWs (b :: t2) = b :: t2 :=
        ih (fun c hc hwc => hws c (List.mem_cons_of_mem _ hc) hwc) (List.chain'_cons.mp hch).2
      rw [ht]
      by_cases ha : jsWs a = true
      · rw [if_pos ha, hws a (by simp) ha]
      · rw [if_neg ha]

theorem dropWhile_fix {p : Char → Bool} :
    ∀ {l : List Char}, (∀ c, l.head? = some c → p c = false) → l.dropWhile p = l := by
  intro l h
  cases l with
  | nil => rfl
  | cons a t =>
    have ha := h a List.head?_cons
    rw [List.dropWhile_cons, if_neg (by simp [ha])]

theorem jsTrim_fix {l : List Char}
    (h1 : ∀ c, l.head? = some c → jsWs c = false)
    (h2 : ∀ c, l.getLast? = some c → jsWs c = false) : jsTrim l = l := by
  unfold jsTrim
  rw [dropWhile_fix h1]
  rw [dropWhile_fix (fun c hc => h2 c (by rw [← List.head?_reverse]; exact hc))]
  exact List.reverse_reverse l

theorem head?_of_prefixOf {l₁ l₂ : List Char} {c : Char} (h : l₁ <+: l₂)
    (hc : l₁.head? = some c) : l₂.head? = some c := by
  rcases h with ⟨t, rfl⟩
  cases l₁ with
  | nil => cases hc
  | cons a t1 =>
    rw [List.head?_cons, Option.some_inj] at hc
    rw [List.cons_append, List.head?_cons, hc]

theorem jsTrim_head?_not_ws {l : List Char} {c : Char} (h : (jsTrim l).head? = some c) :
    jsWs c = false := by
  unfold jsTrim at h
  have hpre : ((l.dropWhile jsWs).reverse.dropWhile jsWs).reverse <+: l.dropWhile jsWs :=
    rtrim_prefixOf jsWs (l.dropWhile jsWs)
  exact head?_dropWhile_not (head?_of_prefixOf hpre h)

theorem jsTrim_getLast?_not_ws {l : List Char} {c : Char} (h : (jsTrim l).getLast? = some c) :
    jsWs c = false := by
  unfold jsTrim at h
  rw [List.getLast?_reverse] at h
  exact head?_dropWhile_not h

theorem jsTrim_sublist (l : List Char) : (jsTrim l).Sublist l := by
  unfold jsTrim
  have h1 : ((l.dropWhile jsWs).reverse.dropWhile jsWs).reverse <+: l.dropWhile jsWs :=
    rtrim_prefixOf jsWs (l.dropWhile jsWs)
  exact h1.sublist.trans (List.dropWhile_sublist jsWs)

theorem chain'_jsTrim {R : Char → Char → Prop} {l : List Char}
    (h : List.Chain' R l) : List.Chain' R (jsTrim l) := by
  unfold jsTrim
  have h1 : List.Chain' R (l.dropWhile jsWs) := h.suffix (List.dropWhile_suffix jsWs)
  exact h1.prefix (rtrim_prefixOf jsWs _)

theorem normalize_chars_idem (l0 : List Char) :
    jsTrim (collapseWs
      (((jsTrim (collapseWs ((l0.map jsToLower).filter keepChar))).map jsToLower).filter keepChar)) =
    jsTrim (collapseWs ((l0.map jsToLower).filter keepChar)) := by
  generalize hk : (l0.map jsToLower).filter keepChar = kept
  have hmem : ∀ c ∈ jsTrim (collapseWs kept),
      isLowerAlpha c = true ∨ isDigitCh c = true ∨ c = ' ' := by
    intro c hc
    have hc1 : c ∈ collapseWs kept := (jsTrim_sublist _).subset hc
    rcases mem_collapseWs hc1 with h' | ⟨hws, hkm⟩
    · exact Or.inr (Or.inr h')
    · rw [← hk] at hkm
      have hkeep := (List.mem_filter.mp hkm).2
      simp only [keepChar, Bool.or_eq_true] at hkeep
      rcases hkeep with (hl | hd) | hw
      · exact Or.inl hl
      · exact Or.inr (Or.inl hd)
      · exact absurd hw (by simp [hws])
  generalize ho : jsTrim (collapseWs kept) = out at hmem ⊢
  have hfix1 : out.map jsToLower = out := map_fix (fun c hc => by
    rcases hmem c hc with h | h | h
    · have hb := isLowerAlpha_iff.mp h
      exact jsToLower_eq_self (by omega)
    · have hb := isDigitCh_iff.mp h
      exact jsToLower_eq_self (by omega)
    · rw [h]; decide)
  have hfix2 : out.filter keepChar = out := List.filter_eq_self.mpr (fun c hc => by
    rcases hmem c hc with h | h | h
    · simp [keepChar, h]
    · simp [keepChar, h]
    · subst h; decide)
  have hws_space : ∀ c ∈ out, jsWs c = true → c = ' ' := by
    intro c hc hw
    rcases hmem c hc with h | h | h
    · have hb := isLowerAlpha_iff.mp h
      rw [jsWs_false_of_mid (by omega) (by omega)] at hw
      cases hw
    · have hb := isDigitCh_iff.mp h
      rw [jsWs_false_of_mid (by omega) (by omega)] at hw
      cases hw
    · exact h
  have hchain : List.Chain' (fun a b => ¬(jsWs a = true ∧ jsWs b = true)) out :=
    ho ▸ chain'_jsTrim (chain'_collapseWs kept)
  have hcf : collapseWs out = out := collapseWs_fix hws_space hchain
  have htf : jsTrim out = out := jsTrim_fix
    (fun c hc => jsTrim_head?_not_ws (l := collapseWs kept) (ho ▸ hc))
    (fun c hc => jsTrim_getLast?_not_ws (l := collapseWs kept) (ho ▸ hc))
  rw [hfix1, hfix2, hcf, htf]

/-! ### Parser structure lemmas -/

theorem jsTrim_ne_nil_of_mem {c : Char} {l : List Char} (hm : c ∈ l) (hws : jsWs c = false) :
    jsTrim l ≠ [] := by
  unfold jsTrim
  intro h
  have h1 := mem_dropWhile_of_not hws hm
  have h2 := mem_dropWhile_of_not hws (List.mem_reverse.mpr h1)
  have h3 := List.mem_reverse.mpr h2
  rw [h] at h3
  cases h3

theorem trimStr_ne_empty {g : List Char} {c : Char} (hm : c ∈ g) (hws : jsWs c = false) :
    trimStr g ≠ "" := by
  unfold trimStr
  intro h
  exact jsTrim_ne_nil_of_mem hm hws (congrArg String.data h)

theorem posAlts_fst {l : List Char} {g4 r : List Char} (h : (g4, r) ∈ posAlts l) :
    g4 ≠ [] ∧ ∀ c ∈ g4, isAlphaCh c = true ∨ c = '/' := by
  unfold posAlts at h
  by_cases he : (l.takeWhile isAlphaCh).isEmpty = true
  · simp [he] at h
  · have hne : l.takeWhile isAlphaCh ≠ [] := by
      intro hx
      rw [hx] at he
      exact he rfl
    simp only [he, if_false, Bool.false_eq_true] at h
    by_cases hsl : ((l.drop (l.takeWhile isAlphaCh).length).head? = some '/' &&
        !(((l.drop (l.takeWhile isAlphaCh).length).drop 1).takeWhile isAlphaCh).isEmpty) = true
    · rw [if_pos hsl] at h
      rcases List.mem_cons.mp h with h1 | h1
      · have hg4 : g4 = l.takeWhile isAlphaCh ++
            '/' :: ((l.drop (l.takeWhile isAlphaCh).length).drop 1).takeWhile isAlphaCh :=
          congrArg Prod.fst h1
        constructor
        · rw [hg4]
          simp
        · intro d hd
          rw [hg4] at hd
          rcases List.mem_append.mp hd with hd1 | hd1
          · exact Or.inl (List.mem_takeWhile_imp hd1)
          · rcases List.mem_cons.mp hd1 with hd2 | hd2
            · exact Or.inr hd2
            · exact Or.inl (List.mem_takeWhile_imp hd2)
      · have hg4 : g4 = l.takeWhile isAlphaCh :=
          congrArg Prod.fst (List.mem_singleton.mp h1)
        exact ⟨hg4 ▸ hne, fun d hd => Or.inl (List.mem_takeWhile_imp (hg4 ▸ hd))⟩
    · rw [if_neg hsl] at h
      have hg4 : g4 = l.takeWhile isAlphaCh :=
        congrArg Prod.fst (List.mem_singleton.mp h)
      exact ⟨hg4 ▸ hne, fun d hd => Or.inl (List.mem_takeWhile_imp (hg4 ▸ hd))⟩

theorem tryPos_fst {l : List Char} {g4 g5 : List Char} (h : tryPos l = some (g4, g5)) :
    g4 ≠ [] ∧ ∀ c ∈ g4, isAlphaCh c = true ∨ c = '/' := by
  unfold tryPos at h
  obtain ⟨alt, hmem, halt⟩ := List.exists_of_findSome?_eq_some h
  rcases alt with ⟨a1, a2⟩
  simp only at halt
  by_cases hc : a2.head? = some ' '
  · rw [if_pos hc] at halt
    by_cases h5 : ((a2.drop 1).takeWhile dotCh).isEmpty = true
    · rw [if_pos h5] at halt
      cases halt
    · rw [if_neg h5, Option.some_inj] at halt
      have hg4 : a1 = g4 := congrArg Prod.fst halt
      rw [← hg4]
      exact posAlts_fst hmem
  · rw [if_neg hc] at halt
    cases halt

theorem tailAttempt_g4 {rest : List Char} {k : Nat} {g3 g4 g5 : List Char}
    (h : tailAttempt rest k = some (g3, g4, g5)) :
    g4 ≠ [] ∧ ∀ c ∈ g4, isAlphaCh c = true ∨ c = '/' := by
  unfold tailAttempt at h
  simp only [bind, Option.bind_eq_some] at h
  obtain ⟨after, _, h2⟩ := h
  obtain ⟨⟨g4', g5'⟩, hp, h3⟩ := h2
  simp only [pure, Option.some_inj] at h3
  have hg4 : g4' = g4 := congrArg (fun t => t.2.1) h3
  rw [hg4] at hp
  exact tryPos_fst hp

theorem tailMatch_some {rest : List Char} :
    ∀ {n : Nat} {r : List Char × List Char × List Char}, tailMatch rest n = some r →
      ∃ k, 1 ≤ k ∧ k ≤ n ∧ tailAttempt rest k = some r ∧
        ∀ j, k < j → j ≤ n → tailAttempt rest j = none := by
  intro n
  induction n with
  | zero => intro r h; simp [tailMatch] at h
  | succ m ih =>
    intro r h
    rw [show tailMatch rest (m + 1) = (tailAttempt rest (m + 1) <|> tailMatch rest m) from rfl] at h
    rcases ha : tailAttempt rest (m + 1) with _ | r1
    · rw [ha] at h
      simp only [Option.none_orElse] at h
      obtain ⟨k, hk1, hk2, hk3, hk4⟩ := ih h
      refine ⟨k, hk1, Nat.le_succ_of_le hk2, hk3, fun j hj1 hj2 => ?_⟩
      rcases Nat.lt_or_ge j (m + 1) with hlt | hge
      · exact hk4 j hj1 (Nat.lt_succ_iff.mp hlt)
      · have hj : j = m + 1 := Nat.le_antisymm hj2 hge
        rw [hj]
        exact ha
    · rw [ha] at h
      simp only [Option.some_orElse, Option.some_inj] at h
      exact ⟨m + 1, by omega, Nat.le_refl _, by rw [ha, h], fun j hj1 hj2 => by omega⟩

theorem matchAt_position {s : List Char} {r : DraftInfo} (h : matchAt s = some r) :
    r.position ≠ "" := by
  unfold matchAt at h
  simp only [bind, Option.bind_eq_some] at h
  obtain ⟨s1, _, ⟨d1, s2⟩, _, s3, _, ⟨d2, s4⟩, _, s5, _, ⟨d0, s6⟩, _, rest, _, h2⟩ := h
  obtain ⟨⟨g3, g4, g5⟩, htm, h3⟩ := h2
  simp only [pure, Option.some_inj] at h3
  obtain ⟨k, _, _, hat, _⟩ := tailMatch_some htm
  obtain ⟨hne, hcls⟩ := tailAttempt_g4 hat
  rcases hg : g4 with _ | ⟨c, g4t⟩
  · exact absurd hg hne
  · have hcmem : c ∈ g4 := by rw [hg]; simp
    have hws : jsWs c = false := by
      rcases hcls c hcmem with hα | hs
      · rcases isAlphaCh_iff.mp hα with ⟨h1, h2⟩ | ⟨h1, h2⟩
        · exact jsWs_false_of_mid (by omega) (by omega)
        · exact jsWs_false_of_mid (by omega) (by omega)
      · have : c.toNat = 47 := by rw [hs]; rfl
        exact jsWs_false_of_mid (by omega) (by omega)
    have hpos : r.position = trimStr g4 := by rw [← h3]
    rw [hpos]
    exact trimStr_ne_empty hcmem hws

theorem scanMatch_some {r : DraftInfo} :
    ∀ {l : List Char}, scanMatch l = some r → ∃ t : List Char, matchAt t = some r := by
  intro l
  induction l with
  | nil => intro h; simp [scanMatch] at h
  | cons a t ih =>
    intro h
    rw [show scanMatch (a :: t) = (matchAt (a :: t) <|> scanMatch t) from rfl] at h
    rcases hm : matchAt (a :: t) with _ | r1
    · rw [hm] at h
      simp only [Option.none_orElse] at h
      exact ih h
    · rw [hm] at h
      simp only [Option.some_orElse, Option.some_inj] at h
      exact ⟨a :: t, by rw [hm, h]⟩

/-- C2 counterexample: on an input whose teamName capture is a single
space (three spaces follow the colon, so the greedy `(.+)` can only take
the middle one), the parser returns a record whose `teamName` is the
empty string after trimming — a record that is not "fully populated with
all five fields non-empty". -/
theorem parse_returns_empty_teamName :
    parseDraftMessage "Round 1, Pick 2 (#3 overall):   select P Bill" =
      some ⟨1, 2, "", "P", "Bill"⟩ ∧
    DraftInfo.teamName ⟨1, 2, "", "P", "Bill"⟩ = "" :=
  ⟨by decide, rfl⟩

/-- C2 amended: for every input string the parser either signals
no-match or returns a structurally complete record whose `round` and
`pick` are integers and whose `position` is non-empty; the trimmed
`teamName` and `playerName` captures, however, can be empty strings when
the captured text is whitespace-only. -/
theorem parse_position_nonempty :
    ∀ (s : String) (r : DraftInfo), parseDraftMessage s = some r → r.position ≠ "" := by
  intro s r h
  unfold parseDraftMessage at h
  obtain ⟨t, hm⟩ := scanMatch_some h
  exact matchAt_position hm

/-- C2 witness: the canonical example message parses, and the theorem
applies to it. -/
theorem parse_position_nonempty_witness :
    parseDraftMessage "Round 3, Pick 12 (#56 overall): Denver Blucifers select P Bill Muncey" =
      some ⟨3, 12, "Denver Blucifers", "P", "Bill Muncey"⟩ ∧
    DraftInfo.position (⟨3, 12, "Denver Blucifers", "P", "Bill Muncey"⟩ : DraftInfo) ≠ "" :=
  ⟨by decide,
   parse_position_nonempty
     "Round 3, Pick 12 (#56 overall): Denver Blucifers select P Bill Muncey"
     ⟨3, 12, "Denver Blucifers", "P", "Bill Muncey"⟩ (by decide)⟩

/-- C8 counterexample: the regex carries the `i` flag, which also makes
the `[A-Z]` position class case-insensitive, so a lowercase position
token `p` parses and is returned verbatim as the `position` field —
the parse neither fails nor misattributes the token. -/
theorem lowercase_position_parses :
    parseDraftMessage "Round 3, Pick 12 (#56 overall): Denver Blucifers select p Bill Muncey" =
      some ⟨3, 12, "Denver Blucifers", "p", "Bill Muncey"⟩ ∧
    DraftInfo.position ⟨3, 12, "Denver Blucifers", "p", "Bill Muncey"⟩ = "p" :=
  ⟨by decide, rfl⟩

/-- C8 amended: the `i` flag extends to the position character class, so
lowercase position tokens — including the slash form — are accepted and
returned verbatim; the parser does not require uppercase. -/
theorem lowercase_position_slash_parses :
    parseDraftMessage "Round 1, Pick 4 (#40 overall): Tokyo Tigers select sp/rp Sandy Koufax" =
      some ⟨1, 4, "Tokyo Tigers", "sp/rp", "Sandy Koufax"⟩ := by decide

/-- C9 counterexample: the `teamName` capture `(.+)` is greedy, not
non-greedy: with two occurrences of "select" after the parenthetical the
returned `teamName` is everything before the LAST viable "select", not
everything strictly before the first. -/
theorem teamName_not_cut_at_first_select :
    parseDraftMessage "Round 1, Pick 2 (#3 overall): AA select BB select P John Doe" =
      some ⟨1, 2, "AA select BB", "P", "John Doe"⟩ ∧
    DraftInfo.teamName ⟨1, 2, "AA select BB", "P", "John Doe"⟩ ≠ "AA" :=
  ⟨by decide, by decide⟩

/-- C9 amended: the capture is greedy — whenever the tail of the pattern
matches, the group-3 split actually used is the LARGEST length `k` for
which `" select "` followed by a position token and a nonempty player
capture succeeds; every longer candidate split fails. -/
theorem teamName_capture_greedy :
    ∀ (rest : List Char) (n : Nat) (r : List Char × List Char × List Char),
      tailMatch rest n = some r →
      ∃ k, 1 ≤ k ∧ k ≤ n ∧ tailAttempt rest k = some r ∧
        ∀ j, k < j → j ≤ n → tailAttempt rest j = none :=
  fun _ _ _ h => tailMatch_some h

/-- C9 witness: the greedy characterization applied to the double-select
text (the matcher is started at the full dot-run length, 30). -/
theorem teamName_capture_greedy_witness :
    ∃ k, 1 ≤ k ∧ k ≤ 30 ∧
      tailAttempt "AA select BB select P John Doe".data k =
        some ("AA select BB".data, "P".data, "John Doe".data) ∧
      ∀ j, k < j → j ≤ 30 →
        tailAttempt "AA select BB select P John Doe".data j = none :=
  teamName_capture_greedy "AA select BB select P John Doe".data 30
    ("AA select BB".data, "P".data, "John Doe".data) (by decide)

/-! ### Player-resolution lemmas -/

theorem findFirst_eq_findSome? (norm : String) :
    ∀ l : List (Option Player), findFirst norm l = l.findSome? (fun p? =>
      match p? with
      | some p =>
        if truthyS p.Name && (normalizeName (p.Name.getD "") == norm) then some p else none
      | none => none) := by
  intro l
  induction l with
  | nil => rfl
  | cons a t ih =>
    cases a with
    | none => simpa [findFirst, List.findSome?_cons] using ih
    | some p =>
      rw [List.findSome?_cons]
      by_cases hp : (truthyS p.Name && (normalizeName (p.Name.getD "") == norm)) = true
      · simp [findFirst, hp]
      · simp [findFirst, hp, ih]

/-- C3 counterexample: an entry whose `Name` is present but equal to the
empty string is skipped by the code's truthiness guard (`player.Name` is
falsy in JavaScript), so for a target whose normalized form is `""` the
code resolves a LATER pitcher while the spec's rule — "the first entry,
scanning batters before pitchers, whose normalized Name equals the
normalized target name" — selects the earlier batter. -/
theorem resolve_skips_empty_name_entry :
    resolvePlayer [some ⟨some "", some "a"⟩] [some ⟨some "!", some "b"⟩] "!" =
      some (⟨some "!", some "b"⟩, "pitchers") ∧
    specFirstMatch "!" ([some ⟨some "", some "a"⟩] ++ [some ⟨some "!", some "b"⟩]) =
      some ⟨some "", some "a"⟩ ∧
    (⟨some "", some "a"⟩ : Player) ≠ ⟨some "!", some "b"⟩ :=
  ⟨by decide, by decide, by decide⟩

/-- C3 amended: the resolved player is the first entry — scanning the
batters list in stored order before the pitchers list in stored order —
that is non-null, has a non-empty `Name`, and whose normalized `Name`
equals the normalized target; entries that are null or lack a truthy
`Name` are skipped even if their (empty) name would normalize equal. -/
theorem resolve_first_truthy_name_match :
    ∀ (batters pitchers : List (Option Player)) (target : String),
      (resolvePlayer batters pitchers target).map Prod.fst =
        (batters ++ pitchers).findSome? (fun p? =>
          match p? with
          | some p =>
            if truthyS p.Name && (normalizeName (p.Name.getD "") == normalizeName target) then
              some p
            else none
          | none => none) := by
  intro b p t
  unfold resolvePlayer
  rw [List.findSome?_append, ← findFirst_eq_findSome?, ← findFirst_eq_findSome?]
  cases hb : findFirst (normalizeName t) b with
  | some pl => simp [hb, Option.or]
  | none =>
    cases hp : findFirst (normalizeName t) p with
    | some pl => simp [hb, hp, Option.or]
    | none => simp [hb, hp, Option.or]

/-! ### Signature-verification lemmas -/

theorem append_v0_ne_empty (x : String) : ("v0=" ++ x) ≠ "" := by
  intro h
  have h2 : ('v' :: '0' :: '=' :: x.data) = ([] : List Char) := congrArg String.data h
  cases h2

theorem append_left_cancel_str {p a b : String} (h : p ++ a = p ++ b) : a = b := by
  have hd : p.data ++ a.data = p.data ++ b.data := congrArg String.data h
  exact String.ext (List.append_cancel_left hd)

theorem foldl_utf8_shift : ∀ (l : List Char) (n : Nat),
    l.foldl (fun a c => a + charUtf8Size c) n = n + l.foldl (fun a c => a + charUtf8Size c) 0 := by
  intro l
  induction l with
  | nil => intro n; simp
  | cons c t ih =>
    intro n
    rw [List.foldl_cons, List.foldl_cons, ih (n + charUtf8Size c), ih (0 + charUtf8Size c)]
    omega

theorem utf8Len_append (a b : String) : utf8Len (a ++ b) = utf8Len a + utf8Len b := by
  show (a.data ++ b.data).foldl (fun n c => n + charUtf8Size c) 0 =
    utf8Len a + utf8Len b
  rw [List.foldl_append, foldl_utf8_shift b.data]
  rfl

theorem verify_rejects_stale_or_tampered
    (hmac : String → String → String) (now : Int) (e : Event) (secret ts origBody : String)
    (hts : e.headers.xSlackRequestTimestamp = some ts)
    (hsig : e.headers.xSlackSignature =
      some ("v0=" ++ hmac secret ("v0:" ++ ts ++ ":" ++ origBody)))
    (hcase : (∃ t, jsToNumber ts = some t ∧ now - t > 300) ∨
      (e.body ≠ origBody ∧
       hmac secret ("v0:" ++ ts ++ ":" ++ e.body) ≠
         hmac secret ("v0:" ++ ts ++ ":" ++ origBody) ∧
       utf8Len (hmac secret ("v0:" ++ ts ++ ":" ++ e.body)) =
         utf8Len (hmac secret ("v0:" ++ ts ++ ":" ++ origBody)))) :
    verifySlackSignature hmac now e secret = .ok false := by
  simp only [verifySlackSignature, hts, hsig, Option.getD_some]
  by_cases htse : ts = ""
  · rw [if_pos (by simp [jsFalsyStrOpt, htse])]
  · rw [if_neg (by simp [jsFalsyStrOpt, htse, append_v0_ne_empty])]
    rcases hcase with ⟨t, hjt, hgt⟩ | ⟨hneq, hdig, hlen⟩
    · rw [hjt]
      rw [if_pos (decide_eq_true (by omega))]
    · by_cases hw : (match jsToNumber ts with
        | some t => decide ((now - t).natAbs > 300)
        | none => false) = true
      · rw [if_pos hw]
      · rw [if_neg hw]
        unfold timingSafeEqual
        rw [if_pos (by
          rw [utf8Len_append, utf8Len_append, hlen])]
        have hne2 : ("v0=" ++ hmac secret ("v0:" ++ ts ++ ":" ++ e.body)) ≠
            ("v0=" ++ hmac secret ("v0:" ++ ts ++ ":" ++ origBody)) := by
          intro hx
          exact hdig (append_left_cancel_str hx)
        rw [decide_eq_false hne2]

theorem handler_401 {hmac : String → String → String} {env : Env} {e : Event}
    (hm : e.httpMethod = "POST")
    (hv : verifySlackSignature hmac env.nowSec e env.signingSecret = Except.ok false) :
    handler hmac env e = .resp 401 "Unauthorized" := by
  unfold handler
  rw [if_neg (by simp [hm]), hv]

/-- C6: a request whose timestamp header parses to a value more than 300
seconds older than the clock, or whose body differs from the body the
signature digest was computed over (assuming the two digests differ and
have equal byte length, as hex HMAC-SHA256 digests of distinct inputs
do), fails verification, and the handler answers 401 Unauthorized. -/
theorem stale_or_tampered_rejected_401 :
    ∀ (hmac : String → String → String) (env : Env) (e : Event) (ts origBody : String),
      e.httpMethod = "POST" →
      e.headers.xSlackRequestTimestamp = some ts →
      e.headers.xSlackSignature =
        some ("v0=" ++ hmac env.signingSecret ("v0:" ++ ts ++ ":" ++ origBody)) →
      ((∃ t, jsToNumber ts = some t ∧ env.nowSec - t > 300) ∨
       (e.body ≠ origBody ∧
        hmac env.signingSecret ("v0:" ++ ts ++ ":" ++ e.body) ≠
          hmac env.signingSecret ("v0:" ++ ts ++ ":" ++ origBody) ∧
        utf8Len (hmac env.signingSecret ("v0:" ++ ts ++ ":" ++ e.body)) =
          utf8Len (hmac env.signingSecret ("v0:" ++ ts ++ ":" ++ origBody)))) →
      handler hmac env e = .resp 401 "Unauthorized" :=
  fun hmac env e ts origBody hm hts hsig hcase =>
    handler_401 hm
      (verify_rejects_stale_or_tampered hmac env.nowSec e env.signingSecret ts origBody
        hts hsig hcase)

/-- C6 witness: with the digest function instantiated so the two base
strings are their own digests, a tampered body of equal length is
rejected with 401. -/
theorem stale_or_tampered_rejected_401_witness :
    handler (fun _ b => b) ⟨"sec", 1000, none, none, false, true⟩
      ⟨"POST", ⟨some ("v0=" ++ "v0:1000:aaa"), some "1000"⟩, "bbb"⟩ =
      .resp 401 "Unauthorized" :=
  stale_or_tampered_rejected_401 (fun _ b => b) ⟨"sec", 1000, none, none, false, true⟩
    ⟨"POST", ⟨some ("v0=" ++ "v0:1000:aaa"), some "1000"⟩, "bbb"⟩ "1000" "aaa"
    rfl rfl rfl (Or.inr ⟨by decide, by decide, by decide⟩)

/-- C1 counterexample: a POST whose JSON body declares
`type:"url_verification"` but which carries no signature headers is
answered 401 — the challenge is NOT echoed, because the handler runs
signature verification before it even parses the JSON body. -/
theorem unsigned_url_verification_rejected :
    handler (fun _ _ => "") ⟨"sec", 1000, none, none, false, true⟩
      ⟨"POST", ⟨none, none⟩, "\x7b\"type\":\"url_verification\",\"challenge\":\"abc\"\x7d"⟩ =
      .resp 401 "Unauthorized" ∧
    handler (fun _ _ => "") ⟨"sec", 1000, none, none, false, true⟩
      ⟨"POST", ⟨none, none⟩, "\x7b\"type\":\"url_verification\",\"challenge\":\"abc\"\x7d"⟩ ≠
      .resp 200 "\x7b\"challenge\":\"abc\"\x7d" :=
  ⟨by decide, by decide⟩

/-- C1 amended: the challenge echo happens only AFTER signature
verification succeeds: for every POST that passes verification and whose
body parses to a payload of type `url_verification`, the handler answers
200 with `JSON.stringify({challenge: payload.challenge})`. -/
theorem url_verification_echo_after_verification :
    ∀ (hmac : String → String → String) (env : Env) (e : Event) (p : Jv)
      (tv c : Option Jv),
      e.httpMethod = "POST" →
      verifySlackSignature hmac env.nowSec e env.signingSecret = Except.ok true →
      jsonParse e.body = some p →
      jmem p "type" = Except.ok tv →
      isStrVal tv "url_verification" = true →
      jmem p "challenge" = Except.ok c →
      handler hmac env e = .resp 200 (challengeBody (e.body.data.length + 1) c) := by
  intro hmac env e p tv c hm hv hj ht hs hc
  simp [handler, hm, hv, hj, ht, hs, hc]

/-- C1 witness: a signed `url_verification` request echoes its
challenge. -/
theorem url_verification_echo_after_verification_witness :
    handler (fun _ _ => "K") ⟨"sec", 1000, none, none, false, true⟩
      ⟨"POST", ⟨some "v0=K", some "1000"⟩,
       "\x7b\"type\":\"url_verification\",\"challenge\":\"abc\"\x7d"⟩ =
      .resp 200 (challengeBody
        ("\x7b\"type\":\"url_verification\",\"challenge\":\"abc\"\x7d".data.length + 1)
        (some (Jv.str "abc"))) :=
  url_verification_echo_after_verification (fun _ _ => "K")
    ⟨"sec", 1000, none, none, false, true⟩
    ⟨"POST", ⟨some "v0=K", some "1000"⟩,
     "\x7b\"type\":\"url_verification\",\"challenge\":\"abc\"\x7d"⟩
    (Jv.obj [("type", Jv.str "url_verification"), ("challenge", Jv.str "abc")])
    (some (Jv.str "url_verification")) (some (Jv.str "abc"))
    rfl rfl rfl rfl rfl rfl

/-- C4 counterexample: a POST whose body is not valid JSON but which
carries no (or invalid) signature headers is answered 401, not 400 —
signature verification runs before JSON parsing, so the 400 is NOT
returned "regardless of the signature and timestamp headers". -/
theorem unsigned_bad_json_rejected :
    handler (fun _ _ => "") ⟨"sec", 1000, none, none, false, true⟩
      ⟨"POST", ⟨none, none⟩, "notjson"⟩ = .resp 401 "Unauthorized" ∧
    handler (fun _ _ => "") ⟨"sec", 1000, none, none, false, true⟩
      ⟨"POST", ⟨none, none⟩, "notjson"⟩ ≠ .resp 400 "Invalid JSON" :=
  ⟨by decide, by decide⟩

/-- C4 amended: for every POST that passes signature verification and
whose raw body is not valid JSON, the handler answers 400. -/
theorem bad_json_400_after_verification :
    ∀ (hmac : String → String → String) (env : Env) (e : Event),
      e.httpMethod = "POST" →
      verifySlackSignature hmac env.nowSec e env.signingSecret = Except.ok true →
      jsonParse e.body = none →
      handler hmac env e = .resp 400 "Invalid JSON" := by
  intro hmac env e hm hv hj
  simp [handler, hm, hv, hj]

/-- C4 witness: a signed request with a non-JSON body gets 400. -/
theorem bad_json_400_after_verification_witness :
    handler (fun _ _ => "K") ⟨"sec", 1000, none, none, false, true⟩
      ⟨"POST", ⟨some "v0=K", some "1000"⟩, "notjson"⟩ = .resp 400 "Invalid JSON" :=
  bad_json_400_after_verification (fun _ _ => "K") ⟨"sec", 1000, none, none, false, true⟩
    ⟨"POST", ⟨some "v0=K", some "1000"⟩, "notjson"⟩ rfl rfl rfl

/-- C5 refuted by the code (code bug): a correctly signed
`event_callback` whose payload carries no `event` object makes the
handler dereference `evt.type` on `undefined` and throw an uncaught
TypeError — no HTTP status is produced; likewise a signature header
whose byte length differs from the 67-byte expected digest string makes
`crypto.timingSafeEqual` throw a RangeError before any catch block. -/
theorem missing_event_object_throws :
    handler (fun _ _ => "K") ⟨"sec", 1000, none, none, false, true⟩
      ⟨"POST", ⟨some "v0=K", some "1000"⟩, "\x7b\"type\":\"event_callback\"\x7d"⟩ =
      .thrown "TypeError: Cannot read properties of undefined" ∧
    handler (fun _ _ => "K") ⟨"sec", 1000, none, none, false, true⟩
      ⟨"POST", ⟨some "abc", some "1000"⟩, "\x7b\x7d"⟩ =
      .thrown "RangeError: Input buffers must have the same byte length" :=
  ⟨by decide, by decide⟩

/-- C10: the team table is a plain object with 21 own keys;
`"constructor"`, `"toString"` and `"hasOwnProperty"` are not among them,
yet the property lookup yields a truthy value inherited from
`Object.prototype`, so a message naming such a "team" does NOT take the
"Unknown team" branch (here it proceeds and ends at "Player not
found"). -/
theorem team_lookup_prototype_pollution :
    teamNameToAbbrev.length = 21 ∧
    (teamNameToAbbrev.lookup "constructor" = none ∧
     teamNameToAbbrev.lookup "toString" = none ∧
     teamNameToAbbrev.lookup "hasOwnProperty" = none) ∧
    (truthyProp (jsGetTeam "constructor") = true ∧
     truthyProp (jsGetTeam "toString") = true ∧
     truthyProp (jsGetTeam "hasOwnProperty") = true) ∧
    (handler (fun _ _ => "K") ⟨"sec", 1000, none, none, false, true⟩
      ⟨"POST", ⟨some "v0=K", some "1000"⟩,
       "\x7b\"type\":\"event_callback\",\"event\":\x7b\"type\":\"message\",\"text\":\"Round 1, Pick 1 (#1 overall): constructor select P Foo Bar\"\x7d\x7d"⟩ ≠
      .resp 200 "Unknown team" ∧
     handler (fun _ _ => "K") ⟨"sec", 1000, none, none, false, true⟩
      ⟨"POST", ⟨some "v0=K", some "1000"⟩,
       "\x7b\"type\":\"event_callback\",\"event\":\x7b\"type\":\"message\",\"text\":\"Round 1, Pick 1 (#1 overall): constructor select P Foo Bar\"\x7d\x7d"⟩ =
      .resp 200 "Player not found") :=
  ⟨by decide, ⟨by decide, by decide, by decide⟩, ⟨by decide, by decide, by decide⟩,
   by decide, by decide⟩

/-- C7: the Name Normalizer is idempotent — `normalizeName (normalizeName s)`
equals `normalizeName s` for every string `s`; in particular
`normalizeName "Bill  Muncey!"` equals `normalizeName "bill muncey"`. -/
theorem normalizeName_idempotent :
    (∀ s : String, normalizeName (normalizeName s) = normalizeName s) ∧
    normalizeName "Bill  Muncey!" = normalizeName "bill muncey" := by
  constructor
  · intro s
    unfold normalizeName
    exact congrArg String.mk (normalize_chars_idem s.data)
  · decide

end SlackDraft
